import Mathlib

/-!
Verification development for the grid-preparation core of sofi2d-python-tools
(`sofi2dpy/model_utils.py`): grid resampling, padding to a tiling multiple, and
the SOFI2D-safe domain-decomposition search.

Models are shallow-embedded as lists of rows of rationals (the Python code works
on 2D numpy arrays of floats; exact rational arithmetic stands in for machine
arithmetic, and Python non-negative machine integers are embedded as `Nat`).
-/

namespace Sofi2dpy

/-- A 2D model array, indexed (x, z): a list of `nx` rows, each a list of `nz`
samples. -/
abbrev Model := List (List ℚ)

/-- Sample of a model at position (i, j): `none` when out of bounds. -/
def entry (m : Model) (i j : Nat) : Option ℚ :=
  (m[i]?.getD [])[j]?

/-- Modelled from the spec: one axis of `numpy.pad` with `mode="edge"` (numpy is
external to the repository). The row is extended by `t` copies of its first
sample on the low side and `b` copies of its last sample on the high side. -/
def padRowEdge (t b : Nat) (row : List ℚ) : List ℚ :=
  List.replicate t (row.headD 0) ++ row ++ List.replicate b (row.getLastD 0)

/-- Modelled from the spec: `numpy.pad(m, ((l, r), (t, b)), mode="edge")` (numpy
is external to the repository). Every row is padded along z, then the first and
last padded rows are replicated `l` and `r` times along x. -/
def npPadEdge (l r t b : Nat) (m : Model) : Model :=
  let rows := m.map (padRowEdge t b)
  List.replicate l (rows.headD []) ++ rows ++ List.replicate r (rows.getLastD [])

/-- Embedding of `int(np.ceil(n / multiple) * multiple)` from
`model_utils.py:141` and `model_utils.py:240` in exact arithmetic: the least
multiple of `multiple` that is ≥ `n`. -/
def ceilMul (n multiple : Nat) : Nat :=
  ((n + multiple - 1) / multiple) * multiple

/-- The padding geometry computed by both definitions of
`pad_model_to_multiple` (`model_utils.py:141-150` and `:240-249`):
`(pad_left, pad_right, pad_top, pad_bot)`. -/
def padGeom (nx nz multiple : Nat) : Nat × Nat × Nat × Nat :=
  let nx_pad := ceilMul nx multiple
  let nz_pad := ceilMul nz multiple
  let pad_x := nx_pad - nx
  let pad_z := nz_pad - nz
  (pad_x / 2, pad_x - pad_x / 2, pad_z / 2, pad_z - pad_z / 2)

/-- Pad one model with the geometry derived from the shape `(nx, nz)`
(the shared `np.pad` call of both padder definitions). -/
def padApply (nx nz multiple : Nat) (m : Model) : Model :=
  let g := padGeom nx nz multiple
  npPadEdge g.1 g.2.1 g.2.2.1 g.2.2.2 m

/-- Dynamic Python values returned by the two padder definitions: a bare 2D
array, a tuple of values, or an integer (used in the pad-info tuple). -/
inductive PyVal where
  | arr (m : Model)
  | tup (vs : List PyVal)
  | int (n : Nat)

/-- Whether a Python value is a bare array (not a tuple). -/
def PyVal.isArr : PyVal → Bool
  | .arr _ => true
  | _ => false

/-- Embedding of the FIRST definition of `pad_model_to_multiple`
(`model_utils.py:115-158`): variadic over models, returning a bare array for a
single model and a tuple of arrays otherwise. This definition is shadowed by
the second definition below and is unreachable through the module name. -/
def pad_model_to_multiple_v1 (models : List Model) (multiple : Nat) : PyVal :=
  let nx := (models.headD []).length
  let nz := ((models.headD []).headD []).length
  let padded := models.map (padApply nx nz multiple)
  if padded.length = 1 then PyVal.arr (padded.headD [])
  else PyVal.tup (padded.map PyVal.arr)

/-- Embedding of the SECOND definition of `pad_model_to_multiple`
(`model_utils.py:219-257`), the one the module name actually binds to after
shadowing: takes a single model, returns the padded model together with the
pad-info tuple `(pad_left, pad_right, pad_top, pad_bot)`. -/
def pad_model_to_multiple (model : Model) (multiple : Nat) :
    Model × (Nat × Nat × Nat × Nat) :=
  (padApply model.length (model.headD []).length multiple model,
   padGeom model.length (model.headD []).length multiple)

/-- The Python value produced by a call to the module-level name
`pad_model_to_multiple` (i.e. to the second, shadowing definition): the 2-tuple
`(padded_model, (pad_left, pad_right, pad_top, pad_bot))`. -/
def pad_model_to_multiple_call (model : Model) (multiple : Nat) : PyVal :=
  let r := pad_model_to_multiple model multiple
  PyVal.tup [PyVal.arr r.1,
    PyVal.tup [PyVal.int r.2.1, PyVal.int r.2.2.1,
               PyVal.int r.2.2.2.1, PyVal.int r.2.2.2.2]]

/-- Embedding of Python's builtin `round` (banker's rounding, as applied to the
float scalars in `model_utils.py:93-94`): round half to even. -/
def pyRound (q : ℚ) : ℤ :=
  if q - ⌊q⌋ < 1 / 2 then ⌊q⌋
  else if 1 / 2 < q - ⌊q⌋ then ⌊q⌋ + 1
  else if ⌊q⌋ % 2 = 0 then ⌊q⌋ else ⌊q⌋ + 1

/-- Embedding of `int(round(x_old[-1] / dh)) + 1` (`model_utils.py:93-94`) with
`x_old[-1] = (n - 1) * d`: the new per-axis sample count of the resampler. -/
def newCount (n : Nat) (d dh : ℚ) : ℤ :=
  pyRound (((n : ℚ) - 1) * d / dh) + 1

/-- Modelled from the spec: `scipy.interpolate.RegularGridInterpolator`
(external to the repository) built over the axes `x_old[i] = i*dx`,
`z_old[j] = j*dz` with `bounds_error=False, fill_value=None`
(`model_utils.py:96-101`): a bilinear grid interpolant whose out-of-range
queries are answered by extending the boundary value, so evaluation never
fails. Coordinates are clamped to the original axis range, the enclosing cell
is located, and the four cell corners are blended bilinearly. -/
def interpValue (m : Model) (dx dz x z : ℚ) : ℚ :=
  let nx := m.length
  let nz := (m.headD []).length
  let xc := max 0 (min x (((nx : ℚ) - 1) * dx))
  let zc := max 0 (min z (((nz : ℚ) - 1) * dz))
  let tx := xc / dx
  let tz := zc / dz
  let i0 := min (⌊tx⌋.toNat) (nx - 2)
  let j0 := min (⌊tz⌋.toNat) (nz - 2)
  let wx := tx - (i0 : ℚ)
  let wz := tz - (j0 : ℚ)
  let v : Nat → Nat → ℚ := fun i j => (entry m i j).getD 0
  (1 - wx) * ((1 - wz) * v i0 j0 + wz * v i0 (j0 + 1)) +
    wx * ((1 - wz) * v (i0 + 1) j0 + wz * v (i0 + 1) (j0 + 1))

/-- Embedding of `resample_model` (`model_utils.py:63-112`): identity fast path
when both spacings already equal the target, otherwise evaluation of the grid
interpolant at every new grid coordinate `(i*dh, j*dh)`, arranged as an
`nx_new × nz_new` array (the meshgrid/ravel/reshape of the source). -/
def resample_model (m : Model) (dx dz dh : ℚ) : Model :=
  if dx = dh ∧ dz = dh then m
  else
    (List.range (newCount m.length dx dh).toNat).map fun (i : Nat) =>
      (List.range (newCount (m.headD []).length dz dh).toNat).map fun (j : Nat) =>
        interpValue m dx dz ((i : ℚ) * dh) ((j : ℚ) * dh)

/-- One step of the decomposition search (`model_utils.py:194-213`): candidate
`fx` for process count `nproc`, rejecting non-divisors, non-dividing grids and
too-small subdomains, and keeping the candidate when it uses strictly more
processes than the best so far. -/
def ddStep (nx nz mb nproc : Nat) (acc : (Nat × Nat) × Nat) (fx : Nat) :
    (Nat × Nat) × Nat :=
  if nproc % fx ≠ 0 then acc
  else if nx % fx ≠ 0 ∨ nz % (nproc / fx) ≠ 0 then acc
  else if nx / fx < mb ∨ nz / (nproc / fx) < mb then acc
  else if acc.2 < fx * (nproc / fx) then ((fx, nproc / fx), fx * (nproc / fx))
  else acc

/-- The inner loop `for fx in range(1, nproc + 1)` of the search. -/
def ddInner (nx nz mb nproc : Nat) (acc : (Nat × Nat) × Nat) :
    (Nat × Nat) × Nat :=
  (List.range' 1 nproc).foldl (ddStep nx nz mb nproc) acc

/-- The full search loop `for nproc in range(1, max_cores + 1)` of
`suggest_domain_decomposition_sofi`, starting from `best = (1, 1)`,
`best_procs = 1`; returns `(best, best_procs)`. -/
def ddSearch (nx nz mb mc : Nat) : (Nat × Nat) × Nat :=
  (List.range' 1 mc).foldl (fun acc nproc => ddInner nx nz mb nproc acc) ((1, 1), 1)

/-- Embedding of `suggest_domain_decomposition_sofi` (`model_utils.py:165-216`):
runs the search with `min_block = 2*fw + 2*fdorder` and returns
`(NPROCX, NPROCY, threads_per_proc, total_procs)` with
`threads_per_proc = max(1, max_cores // total_procs)`. -/
def suggest_domain_decomposition_sofi (nx nz max_cores fw fdorder : Nat) :
    Nat × Nat × Nat × Nat :=
  let best := ddSearch nx nz (2 * fw + 2 * fdorder) max_cores
  (best.1.1, best.1.2, max 1 (max_cores / best.2), best.2)

/-- A feasible process-grid factorization: the grid divides evenly and both
local dimensions reach the minimum block size. -/
def Feasible (nx nz mb fx fy : Nat) : Prop :=
  nx % fx = 0 ∧ nz % fy = 0 ∧ mb ≤ nx / fx ∧ mb ≤ nz / fy

instance (nx nz mb fx fy : Nat) : Decidable (Feasible nx nz mb fx fy) := by
  unfold Feasible; infer_instance

/-- The padding-shape contract of `pad_model_to_multiple` for a model of shape
`(nx, nz)`: both padded dimensions are the least multiples of `multiple` at or
above the originals, and the pad-info tuple splits each axis's total padding as
`before = pad / 2`, `after = pad - before`. -/
def PadSpec (m : Model) (multiple nx nz : Nat) : Prop :=
  (pad_model_to_multiple m multiple).1.length = ceilMul nx multiple ∧
  (∀ row ∈ (pad_model_to_multiple m multiple).1, row.length = ceilMul nz multiple) ∧
  ceilMul nx multiple % multiple = 0 ∧ nx ≤ ceilMul nx multiple ∧
  (∀ k, k % multiple = 0 → nx ≤ k → ceilMul nx multiple ≤ k) ∧
  ceilMul nz multiple % multiple = 0 ∧ nz ≤ ceilMul nz multiple ∧
  (∀ k, k % multiple = 0 → nz ≤ k → ceilMul nz multiple ≤ k) ∧
  (pad_model_to_multiple m multiple).2 =
    ((ceilMul nx multiple - nx) / 2,
     (ceilMul nx multiple - nx) - (ceilMul nx multiple - nx) / 2,
     (ceilMul nz multiple - nz) / 2,
     (ceilMul nz multiple - nz) - (ceilMul nz multiple - nz) / 2)

/-- The 17 × 33 all-zero model of the spec's concrete padding scenario. -/
def ex17 : Model := List.replicate 17 (List.replicate 33 (0 : ℚ))

/-- Indexing past a replicated prefix lands in the appended list. -/
theorem getElem_replicate_append {α : Type} (x : α) (l i : Nat) (rest : List α) :
    (List.replicate l x ++ rest)[l + i]? = rest[i]? := by
  rw [List.getElem?_append_right (by simp)]
  congr 1
  simp

/-- Length of an edge-padded row. -/
theorem padRowEdge_length (t b : Nat) (row : List ℚ) :
    (padRowEdge t b row).length = t + row.length + b := by
  simp [padRowEdge]
  omega

/-- Row count of an edge-padded model. -/
theorem npPadEdge_length (l r t b : Nat) (m : Model) :
    (npPadEdge l r t b m).length = l + m.length + r := by
  simp [npPadEdge]
  omega

/-- Every row of an edge-padded rectangular model has the padded width. -/
theorem npPadEdge_row_length (l r t b : Nat) (m : Model) (nz : Nat)
    (hm : m ≠ []) (rect : ∀ row ∈ m, row.length = nz) :
    ∀ row ∈ npPadEdge l r t b m, row.length = t + nz + b := by
  have hrows : ∀ row ∈ m.map (padRowEdge t b), row.length = t + nz + b := by
    intro row hr
    obtain ⟨orig, ho, rfl⟩ := List.mem_map.mp hr
    rw [padRowEdge_length, rect orig ho]
  intro row hrow
  simp only [npPadEdge] at hrow
  rcases List.mem_append.mp hrow with h1 | h2
  · rcases List.mem_append.mp h1 with ha | hb
    · have hx := List.eq_of_mem_replicate ha
      subst hx
      apply hrows
      cases m with
      | nil => exact absurd rfl hm
      | cons a as => simp
    · exact hrows _ hb
  · have hx := List.eq_of_mem_replicate h2
    subst hx
    apply hrows
    cases m with
    | nil => exact absurd rfl hm
    | cons a as =>
      simp only [List.map_cons]
      rw [List.getLastD_cons]
      exact List.getLastD_mem_cons _ _

/-- A padded row agrees with the original row at the shifted index. -/
theorem padRowEdge_getElem (t b : Nat) (row : List ℚ) (j : Nat)
    (hj : j < row.length) :
    (padRowEdge t b row)[t + j]? = row[j]? := by
  unfold padRowEdge
  rw [List.append_assoc, getElem_replicate_append]
  exact List.getElem?_append_left hj

/-- Interior preservation of edge padding: the padded model agrees with the
original model at every shifted interior position. -/
theorem npPadEdge_entry (l r t b : Nat) (m : Model) (i j : Nat)
    (hi : i < m.length) (hj : j < (m[i]?.getD []).length) :
    entry (npPadEdge l r t b m) (l + i) (t + j) = entry m i j := by
  have hmi : m[i]? = some (m[i]) := List.getElem?_eq_getElem hi
  have hj' : j < (m.get ⟨i, hi⟩).length := by
    rw [hmi] at hj
    simpa [List.get_eq_getElem] using hj
  simp only [entry, npPadEdge]
  rw [List.append_assoc, getElem_replicate_append,
    List.getElem?_append_left (by simpa using hi), List.getElem?_map, hmi]
  simp only [Option.map_some, Option.getD_some]
  exact padRowEdge_getElem t b _ j hj'

/-- The ceiling-multiple is at least the original dimension. -/
theorem le_ceilMul (n mult : Nat) (hmul : 1 ≤ mult) : n ≤ ceilMul n mult := by
  unfold ceilMul
  have hdm := Nat.div_add_mod (n + mult - 1) mult
  have hlt : (n + mult - 1) % mult < mult := Nat.mod_lt _ (by omega)
  set q := (n + mult - 1) / mult with hq
  set s := (n + mult - 1) % mult with hs
  rw [Nat.mul_comm]
  set p := mult * q with hp
  omega

/-- The ceiling-multiple is an exact multiple. -/
theorem ceilMul_mod (n mult : Nat) : ceilMul n mult % mult = 0 := by
  unfold ceilMul
  exact Nat.mul_mod_left _ _

/-- The ceiling-multiple is the least multiple at or above the dimension. -/
theorem ceilMul_le_of (n mult k : Nat) (hmul : 1 ≤ mult)
    (hk : k % mult = 0) (hnk : n ≤ k) : ceilMul n mult ≤ k := by
  obtain ⟨j, rfl⟩ : ∃ j, k = mult * j :=
    ⟨k / mult, (Nat.mul_div_cancel' (Nat.dvd_of_mod_eq_zero hk)).symm⟩
  unfold ceilMul
  have hdm := Nat.div_add_mod (n + mult - 1) mult
  have hlt : (n + mult - 1) % mult < mult := Nat.mod_lt _ (by omega)
  set q := (n + mult - 1) / mult with hq
  set s := (n + mult - 1) % mult with hs
  have hexp : mult * (j + 1) = mult * j + mult := by ring
  have h1 : mult * q < mult * (j + 1) := by
    set p := mult * q with hp
    set w := mult * j with hw
    omega
  have h2 : q ≤ j := by
    have := Nat.lt_of_mul_lt_mul_left h1
    omega
  calc q * mult = mult * q := by ring
    _ ≤ mult * j := Nat.mul_le_mul_left mult h2

set_option maxRecDepth 4000 in
/-- C5: for the spec's concrete scenario `nx=512, nz=256, max_cores=16,
boundary_width=40, stencil_order=4` (so `min_block = 88`), the decomposition
suggestion is exactly `(NPROCX=4, NPROCY=2, threads_per_proc=2,
total_procs=8)`. -/
theorem c5_concrete :
    suggest_domain_decomposition_sofi 512 256 16 40 4 = (4, 2, 2, 8) := by
  decide

/-- C4 counterexample: called with `max_cores = 0 < 1` (and otherwise valid
grid inputs), `suggest_domain_decomposition_sofi` raises nothing and silently
returns the degenerate layout `(1, 1, 1, 1)` — the source contains no
validation or raise statement, contradicting the claim that such calls receive
an error before the search begins. -/
theorem c4_counterexample :
    suggest_domain_decomposition_sofi 512 256 0 40 4 = (1, 1, 1, 1) := by
  decide

/-- C4 amended: a call with `max_cores < 1` is not rejected; the search loop
body never runs and the function silently returns the degenerate `(1, 1)`
layout with one thread per process and `total_procs = 1`, for every grid size
and stencil/boundary parameter. -/
theorem c4_amended (nx nz fw fdorder : Nat) :
    suggest_domain_decomposition_sofi nx nz 0 fw fdorder = (1, 1, 1, 1) := by
  simp [suggest_domain_decomposition_sofi, ddSearch, List.range']

/-- C7: resampling with `dx = dz = dh = h` takes the identity fast path of
`model_utils.py:85-86` and returns the input model itself, unchanged. -/
theorem c7_identity_resample (m : Model) (h : ℚ) :
    resample_model m h h h = m := by
  simp [resample_model]

/-- C1 counterexample: a call to the module-level `pad_model_to_multiple` with
exactly one model (here the 1 × 1 model `[[0]]` and `multiple = 1`) does not
return a bare padded array: shadowed by the second definition, it returns the
2-tuple `(padded_model, pad_info)`. -/
theorem c1_counterexample :
    (pad_model_to_multiple_call [[(0 : ℚ)]] 1).isArr = false := by
  decide

/-- C1 amended: the shadowed FIRST definition does return a bare array for one
model and a same-order tuple of padded arrays for several, but the
module-level name is bound to the SECOND definition, so every call takes one
model and returns the 2-tuple `(padded_model, pad_info)`. -/
theorem c1_amended (m : Model) (models : List Model) (multiple : Nat)
    (hlen : 2 ≤ models.length) :
    pad_model_to_multiple_v1 [m] multiple
      = PyVal.arr (padApply m.length (m.headD []).length multiple m) ∧
    pad_model_to_multiple_v1 models multiple
      = PyVal.tup (models.map fun mm =>
          PyVal.arr (padApply (models.headD []).length
            ((models.headD []).headD []).length multiple mm)) ∧
    pad_model_to_multiple_call m multiple
      = PyVal.tup [PyVal.arr (padApply m.length (m.headD []).length multiple m),
          PyVal.tup [PyVal.int (padGeom m.length (m.headD []).length multiple).1,
                     PyVal.int (padGeom m.length (m.headD []).length multiple).2.1,
                     PyVal.int (padGeom m.length (m.headD []).length multiple).2.2.1,
                     PyVal.int (padGeom m.length (m.headD []).length multiple).2.2.2]] := by
  refine ⟨?_, ?_, rfl⟩
  · simp [pad_model_to_multiple_v1]
  · have hne : models.length ≠ 1 := by omega
    simp [pad_model_to_multiple_v1, hne, List.map_map, Function.comp]

/-- C1 amended, witnessed at a one-model call and a two-model call. -/
theorem c1_amended_witness :
    2 ≤ ([[[(0 : ℚ)]], [[(1 : ℚ)]]] : List Model).length ∧
    (pad_model_to_multiple_v1 [[[(0 : ℚ)]]] 1
      = PyVal.arr (padApply 1 1 1 [[(0 : ℚ)]]) ∧
    pad_model_to_multiple_v1 [[[(0 : ℚ)]], [[(1 : ℚ)]]] 1
      = PyVal.tup (([[[(0 : ℚ)]], [[(1 : ℚ)]]] : List Model).map fun mm =>
          PyVal.arr (padApply 1 1 1 mm)) ∧
    pad_model_to_multiple_call [[(0 : ℚ)]] 1
      = PyVal.tup [PyVal.arr (padApply 1 1 1 [[(0 : ℚ)]]),
          PyVal.tup [PyVal.int (padGeom 1 1 1).1,
                     PyVal.int (padGeom 1 1 1).2.1,
                     PyVal.int (padGeom 1 1 1).2.2.1,
                     PyVal.int (padGeom 1 1 1).2.2.2]]) :=
  ⟨by decide, c1_amended [[(0 : ℚ)]] [[[(0 : ℚ)]], [[(1 : ℚ)]]] 1 (by decide)⟩

/-- C6: for a rectangular `(nx, nz)` model and `multiple ≥ 1`, the padded
array has shape `(nx_pad, nz_pad)` where each padded dimension is the least
exact multiple of `multiple` at or above the original, and the per-axis
padding is split as `before = pad / 2`, `after = pad - before`. -/
theorem c6_pad_shape (m : Model) (multiple nx nz : Nat) (hmul : 1 ≤ multiple)
    (hnx : m.length = nx) (rect : ∀ row ∈ m, row.length = nz)
    (hx : 1 ≤ nx) (hz : 1 ≤ nz) :
    PadSpec m multiple nx nz := by
  have hm : m ≠ [] := by
    intro h
    rw [h] at hnx
    simp at hnx
    omega
  have hznz : (m.headD []).length = nz := by
    cases m with
    | nil => exact absurd rfl hm
    | cons a as => exact rect a (by simp)
  have h1 := le_ceilMul nx multiple hmul
  have h2 := le_ceilMul nz multiple hmul
  refine ⟨?_, ?_, ceilMul_mod nx multiple, h1,
    fun k hk hnk => ceilMul_le_of nx multiple k hmul hk hnk,
    ceilMul_mod nz multiple, h2,
    fun k hk hnk => ceilMul_le_of nz multiple k hmul hk hnk, ?_⟩
  · show (padApply m.length (m.headD []).length multiple m).length = _
    rw [padApply, npPadEdge_length]
    simp only [padGeom, hnx, hznz]
    omega
  · intro row hrow
    have hlen := npPadEdge_row_length
      (padGeom m.length (m.headD []).length multiple).1
      (padGeom m.length (m.headD []).length multiple).2.1
      (padGeom m.length (m.headD []).length multiple).2.2.1
      (padGeom m.length (m.headD []).length multiple).2.2.2
      m nz hm rect row hrow
    rw [hlen]
    simp only [padGeom, hnx, hznz]
    omega
  · show padGeom m.length (m.headD []).length multiple = _
    rw [hnx, hznz]
    rfl

/-- C6, witnessed at the spec's concrete scenario: a 17 × 33 model padded to
multiples of 16 gets shape 32 × 48 with offsets (7, 8, 7, 8). -/
theorem c6_pad_shape_witness :
    (1 ≤ 16 ∧ ex17.length = 17 ∧ (∀ row ∈ ex17, row.length = 33) ∧
      1 ≤ 17 ∧ 1 ≤ 33) ∧
    PadSpec ex17 16 17 33 ∧
    (pad_model_to_multiple ex17 16).1.length = 32 ∧
    (∀ row ∈ (pad_model_to_multiple ex17 16).1, row.length = 48) ∧
    (pad_model_to_multiple ex17 16).2 = (7, 8, 7, 8) := by
  have h := c6_pad_shape ex17 16 17 33 (by decide) (by decide) (by decide)
    (by decide) (by decide)
  refine ⟨⟨by decide, by decide, by decide, by decide, by decide⟩, h, ?_, ?_, ?_⟩
  · have := h.1
    simpa using this
  · intro row hrow
    have := h.2.1 row hrow
    simpa using this
  · have := h.2.2.2.2.2.2.2.2
    simpa using this

/-- C10: padding only adds border samples: for every interior position
`(i, j)` of the original model, the padded array returned by
`pad_model_to_multiple` holds the original sample at the index shifted by the
returned `(left, top)` offsets. -/
theorem c10_interior (m : Model) (multiple : Nat) (hmul : 1 ≤ multiple)
    (i j : Nat) (hi : i < m.length) (hj : j < (m[i]?.getD []).length) :
    entry (pad_model_to_multiple m multiple).1
      ((pad_model_to_multiple m multiple).2.1 + i)
      ((pad_model_to_multiple m multiple).2.2.2.1 + j) = entry m i j :=
  npPadEdge_entry _ _ _ _ m i j hi hj

/-- C10, witnessed on a concrete 2 × 2 model padded to multiples of 4. -/
theorem c10_interior_witness :
    1 ≤ 4 ∧ 0 < ([[(1 : ℚ), 2], [(3 : ℚ), 4]] : Model).length ∧
    0 < ((([[(1 : ℚ), 2], [(3 : ℚ), 4]] : Model)[0]?).getD []).length ∧
    entry (pad_model_to_multiple [[(1 : ℚ), 2], [(3 : ℚ), 4]] 4).1
      ((pad_model_to_multiple [[(1 : ℚ), 2], [(3 : ℚ), 4]] 4).2.1 + 0)
      ((pad_model_to_multiple [[(1 : ℚ), 2], [(3 : ℚ), 4]] 4).2.2.2.1 + 0)
      = entry [[(1 : ℚ), 2], [(3 : ℚ), 4]] 0 0 :=
  ⟨by decide, by decide, by decide,
    c10_interior [[(1 : ℚ), 2], [(3 : ℚ), 4]] 4 (by decide) 0 0 (by decide)
      (by decide)⟩

/-- Each search step never decreases the tracked best process count. -/
theorem ddStep_snd_le (nx nz mb nproc : Nat) (acc : (Nat × Nat) × Nat)
    (fx : Nat) : acc.2 ≤ (ddStep nx nz mb nproc acc fx).2 := by
  unfold ddStep
  split_ifs with h1 h2 h3 h4
  · exact le_refl _
  · exact le_refl _
  · exact le_refl _
  · exact Nat.le_of_lt h4
  · exact le_refl _

/-- A fold of steps that never decrease the measure never decreases it. -/
theorem foldl_snd_mono {α : Type} (f : (Nat × Nat) × Nat → α → (Nat × Nat) × Nat)
    (hf : ∀ b a, b.2 ≤ (f b a).2) :
    ∀ (l : List α) (b : (Nat × Nat) × Nat), b.2 ≤ (l.foldl f b).2 := by
  intro l
  induction l with
  | nil => intro b; exact le_refl _
  | cons a t ih => intro b; exact le_trans (hf b a) (ih (f b a))

/-- If some processed element pushes the measure to at least `v`, the whole
fold ends at least at `v`. -/
theorem foldl_reach {α : Type} (f : (Nat × Nat) × Nat → α → (Nat × Nat) × Nat)
    (hf : ∀ b a, b.2 ≤ (f b a).2) (v : Nat) (x : α)
    (hx : ∀ b, v ≤ (f b x).2) :
    ∀ (l : List α) (b : (Nat × Nat) × Nat), x ∈ l → v ≤ (l.foldl f b).2 := by
  intro l
  induction l with
  | nil => intro b h; cases h
  | cons a t ih =>
    intro b hmem
    rcases List.mem_cons.mp hmem with heq | hmem2
    · subst heq
      exact le_trans (hx b) (foldl_snd_mono f hf t (f b x))
    · exact ih (f b a) hmem2

/-- A feasible candidate processed by `ddStep` pushes the best count to at
least `nproc`. -/
theorem ddStep_reach (nx nz mb nproc fx : Nat) (hdvd : nproc % fx = 0)
    (hx : nx % fx = 0) (hz : nz % (nproc / fx) = 0)
    (hbx : mb ≤ nx / fx) (hbz : mb ≤ nz / (nproc / fx)) :
    ∀ acc : (Nat × Nat) × Nat, nproc ≤ (ddStep nx nz mb nproc acc fx).2 := by
  intro acc
  have hmul : fx * (nproc / fx) = nproc :=
    Nat.mul_div_cancel' (Nat.dvd_of_mod_eq_zero hdvd)
  unfold ddStep
  split_ifs with h1 h2 h3 h4
  · exact absurd hdvd h1
  · rcases h2 with h | h
    · exact absurd hx h
    · exact absurd hz h
  · rcases h3 with h | h
    · omega
    · omega
  · show nproc ≤ fx * (nproc / fx)
    rw [hmul]
  · show nproc ≤ acc.2
    rw [← hmul]
    exact Nat.not_lt.mp h4

/-- The full search reaches every feasible candidate with positive factors. -/
theorem ddSearch_reach (nx nz mb mc fx fy : Nat) (hfx : 0 < fx) (hfy : 0 < fy)
    (hle : fx * fy ≤ mc) (hx : nx % fx = 0) (hz : nz % fy = 0)
    (hbx : mb ≤ nx / fx) (hbz : mb ≤ nz / fy) :
    fx * fy ≤ (ddSearch nx nz mb mc).2 := by
  have hq : fx * fy / fx = fy := Nat.mul_div_cancel_left fy hfx
  have hmod : fx * fy % fx = 0 := Nat.mul_mod_right fx fy
  have hpos : 0 < fx * fy := Nat.mul_pos hfx hfy
  have hfxle : fx ≤ fx * fy := Nat.le_mul_of_pos_right fx hfy
  have hinner : ∀ acc, fx * fy ≤ (ddInner nx nz mb (fx * fy) acc).2 := by
    intro acc
    unfold ddInner
    refine foldl_reach _ (fun b a => ddStep_snd_le nx nz mb (fx * fy) b a)
      (fx * fy) fx ?_ _ acc ?_
    · intro b
      refine ddStep_reach nx nz mb (fx * fy) fx hmod hx ?_ hbx ?_ b
      · rw [hq]; exact hz
      · rw [hq]; exact hbz
    · rw [List.mem_range']
      exact ⟨fx - 1, by omega, by omega⟩
  unfold ddSearch
  refine foldl_reach _ ?_ (fx * fy) (fx * fy) (fun b => hinner b) _ _ ?_
  · intro b a
    show b.2 ≤ ((List.range' 1 a).foldl (ddStep nx nz mb a) b).2
    exact foldl_snd_mono _ (fun b' a' => ddStep_snd_le nx nz mb a b' a') _ b
  · rw [List.mem_range']
    exact ⟨fx * fy - 1, by omega, by omega⟩

/-- C3: the returned `total_procs` is maximal: every factor pair `(fx, fy)`
within the core budget that divides the grid and respects the minimum block
size uses at most `total_procs` processes. -/
theorem c3_maximality (nx nz mc fw fo : Nat) (hnx : 0 < nx) (hnz : 0 < nz)
    (hmc : 0 < mc) (fx fy : Nat) (hle : fx * fy ≤ mc)
    (hx : nx % fx = 0) (hz : nz % fy = 0)
    (hbx : 2 * fw + 2 * fo ≤ nx / fx) (hbz : 2 * fw + 2 * fo ≤ nz / fy) :
    fx * fy ≤ (suggest_domain_decomposition_sofi nx nz mc fw fo).2.2.2 := by
  rcases Nat.eq_zero_or_pos fx with h0 | hfx
  · subst h0
    simp
  rcases Nat.eq_zero_or_pos fy with h0 | hfy
  · subst h0
    simp
  show fx * fy ≤ (ddSearch nx nz (2 * fw + 2 * fo) mc).2
  exact ddSearch_reach nx nz _ mc fx fy hfx hfy hle hx hz hbx hbz

set_option maxRecDepth 4000 in
/-- C3, witnessed at the spec's concrete scenario with the feasible pair
`(fx, fy) = (2, 2)`: 4 processes never beat the returned total of 8. -/
theorem c3_maximality_witness :
    (0 < 512 ∧ 0 < 256 ∧ 0 < 16 ∧ 2 * 2 ≤ 16 ∧ 512 % 2 = 0 ∧ 256 % 2 = 0 ∧
      2 * 40 + 2 * 4 ≤ 512 / 2 ∧ 2 * 40 + 2 * 4 ≤ 256 / 2) ∧
    2 * 2 ≤ (suggest_domain_decomposition_sofi 512 256 16 40 4).2.2.2 :=
  ⟨⟨by decide, by decide, by decide, by decide, by decide, by decide,
      by decide, by decide⟩,
    c3_maximality 512 256 16 40 4 (by decide) (by decide) (by decide) 2 2
      (by decide) (by decide) (by decide) (by decide) (by decide)⟩

/-- A predicate preserved by every step is preserved by the whole fold. -/
theorem foldl_preserve {α β : Type} (P : β → Prop) (f : β → α → β)
    (hf : ∀ b a, P b → P (f b a)) :
    ∀ (l : List α) (b : β), P b → P (l.foldl f b) := by
  intro l
  induction l with
  | nil => intro b hb; exact hb
  | cons a t ih => intro b hb; exact ih (f b a) (hf b a hb)

/-- Each search step preserves the invariant that a best count above one is
witnessed by a feasible tracked pair. -/
theorem ddStep_inv (nx nz mb nproc : Nat) (acc : (Nat × Nat) × Nat) (fx : Nat)
    (h : 1 < acc.2 → Feasible nx nz mb acc.1.1 acc.1.2) :
    1 < (ddStep nx nz mb nproc acc fx).2 →
      Feasible nx nz mb (ddStep nx nz mb nproc acc fx).1.1
        (ddStep nx nz mb nproc acc fx).1.2 := by
  unfold ddStep
  split_ifs with h1 h2 h3 h4
  · exact h
  · exact h
  · exact h
  · intro _
    push_neg at h2 h3
    exact ⟨h2.1, h2.2, h3.1, h3.2⟩
  · exact h

/-- The search invariant holds of the final search result. -/
theorem ddSearch_inv (nx nz mb mc : Nat) :
    1 < (ddSearch nx nz mb mc).2 →
      Feasible nx nz mb (ddSearch nx nz mb mc).1.1 (ddSearch nx nz mb mc).1.2 := by
  unfold ddSearch
  refine foldl_preserve
    (fun b : (Nat × Nat) × Nat => 1 < b.2 → Feasible nx nz mb b.1.1 b.1.2)
    _ ?_ _ _ ?_
  · intro b a hb
    show 1 < (ddInner nx nz mb a b).2 →
      Feasible nx nz mb (ddInner nx nz mb a b).1.1 (ddInner nx nz mb a b).1.2
    unfold ddInner
    exact foldl_preserve
      (fun b' : (Nat × Nat) × Nat => 1 < b'.2 → Feasible nx nz mb b'.1.1 b'.1.2)
      _ (fun b' fx hb' => ddStep_inv nx nz mb a b' fx hb') _ b hb
  · intro hcon
    exact absurd hcon (by omega)

/-- C2: whenever the returned layout has `total_procs > 1`, the grid divides
evenly across the process grid and both local dimensions are at least
`min_block = 2*fw + 2*fdorder`. -/
theorem c2_invariants (nx nz mc fw fo : Nat) (hnx : 0 < nx) (hnz : 0 < nz)
    (hmc : 0 < mc)
    (htot : 1 < (suggest_domain_decomposition_sofi nx nz mc fw fo).2.2.2) :
    nx % (suggest_domain_decomposition_sofi nx nz mc fw fo).1 = 0 ∧
    nz % (suggest_domain_decomposition_sofi nx nz mc fw fo).2.1 = 0 ∧
    2 * fw + 2 * fo ≤ nx / (suggest_domain_decomposition_sofi nx nz mc fw fo).1 ∧
    2 * fw + 2 * fo ≤ nz / (suggest_domain_decomposition_sofi nx nz mc fw fo).2.1 :=
  ddSearch_inv nx nz (2 * fw + 2 * fo) mc htot

set_option maxRecDepth 4000 in
/-- C2, witnessed at the spec's concrete scenario, whose returned layout has
`total_procs = 8 > 1`. -/
theorem c2_invariants_witness :
    (0 < 512 ∧ 0 < 256 ∧ 0 < 16 ∧
      1 < (suggest_domain_decomposition_sofi 512 256 16 40 4).2.2.2) ∧
    (512 % (suggest_domain_decomposition_sofi 512 256 16 40 4).1 = 0 ∧
     256 % (suggest_domain_decomposition_sofi 512 256 16 40 4).2.1 = 0 ∧
     2 * 40 + 2 * 4 ≤ 512 / (suggest_domain_decomposition_sofi 512 256 16 40 4).1 ∧
     2 * 40 + 2 * 4 ≤ 256 / (suggest_domain_decomposition_sofi 512 256 16 40 4).2.1) :=
  ⟨⟨by decide, by decide, by decide, by decide⟩,
    c2_invariants 512 256 16 40 4 (by decide) (by decide) (by decide) (by decide)⟩

/-- Clamping to `[0, h]` is idempotent. -/
theorem clamp_idem {h v : ℚ} (h0 : 0 ≤ h) :
    max 0 (min (max 0 (min v h)) h) = max 0 (min v h) := by
  have h1 : (0 : ℚ) ≤ max 0 (min v h) := le_max_left 0 _
  have h2 : max 0 (min v h) ≤ h := max_le h0 (min_le_right v h)
  rw [min_eq_left h2, max_eq_right h1]

/-- The interpolant answers any query with its value at the coordinate clamped
to the original axis range: out-of-range queries extend the boundary value. -/
theorem interpValue_clamp (m : Model) (dx dz x z : ℚ)
    (hx0 : 0 ≤ ((m.length : ℚ) - 1) * dx)
    (hz0 : 0 ≤ (((m.headD []).length : ℚ) - 1) * dz) :
    interpValue m dx dz x z
      = interpValue m dx dz
          (max 0 (min x (((m.length : ℚ) - 1) * dx)))
          (max 0 (min z ((((m.headD []).length : ℚ) - 1) * dz))) := by
  simp only [interpValue]
  rw [clamp_idem hx0, clamp_idem hz0]

/-- Shape of the resampled grid in the exact-arithmetic embedding: the
non-identity path returns exactly `nx_new` rows of `nz_new` samples each,
where `n_new = round((n_old - 1) * d / dh) + 1` per axis. -/
theorem resample_shape (m : Model) (dx dz dh : ℚ)
    (hne : ¬(dx = dh ∧ dz = dh)) :
    (resample_model m dx dz dh).length = (newCount m.length dx dh).toNat ∧
    ∀ row ∈ resample_model m dx dz dh,
      row.length = (newCount (m.headD []).length dz dh).toNat := by
  unfold resample_model
  rw [if_neg hne]
  constructor
  · simp
  · intro row hrow
    obtain ⟨i, hi, rfl⟩ := List.mem_map.mp hrow
    simp

/-- C9: when a new grid coordinate falls outside the original axis range, the
resampler still produces a defined sample at every in-shape position — the
sample is the interpolant's value, which by construction is its
boundary-extended (clamped) value. -/
theorem c9_extrapolation (m : Model) (dx dz dh : ℚ)
    (hdx : 0 < dx) (hdz : 0 < dz) (hdh : 0 < dh)
    (hnx : 1 ≤ m.length) (hnz : 1 ≤ (m.headD []).length)
    (hne : ¬(dx = dh ∧ dz = dh)) (i j : Nat)
    (hi : i < (newCount m.length dx dh).toNat)
    (hj : j < (newCount (m.headD []).length dz dh).toNat)
    (hout : ((m.length : ℚ) - 1) * dx < (i : ℚ) * dh ∨
            (((m.headD []).length : ℚ) - 1) * dz < (j : ℚ) * dh) :
    ((resample_model m dx dz dh)[i]?.getD [])[j]?
      = some (interpValue m dx dz ((i : ℚ) * dh) ((j : ℚ) * dh)) ∧
    interpValue m dx dz ((i : ℚ) * dh) ((j : ℚ) * dh)
      = interpValue m dx dz
          (max 0 (min ((i : ℚ) * dh) (((m.length : ℚ) - 1) * dx)))
          (max 0 (min ((j : ℚ) * dh) ((((m.headD []).length : ℚ) - 1) * dz))) := by
  constructor
  · unfold resample_model
    rw [if_neg hne]
    rw [List.getElem?_map, List.getElem?_range hi]
    simp only [Option.map_some', Option.getD_some]
    rw [List.getElem?_map, List.getElem?_range hj]
    simp only [Option.map_some']
  · apply interpValue_clamp
    · apply mul_nonneg _ (le_of_lt hdx)
      have h1 : (1 : ℚ) ≤ (m.length : ℚ) := by exact_mod_cast hnx
      linarith
    · apply mul_nonneg _ (le_of_lt hdz)
      have h1 : (1 : ℚ) ≤ ((m.headD []).length : ℚ) := by exact_mod_cast hnz
      linarith

/-- C9, witnessed on a 2 × 2 model with `dx = dz = 2` resampled to `dh = 3`:
the new coordinate `(3, 3)` lies outside the original extent `(2, 2)`, yet the
sample at index `(1, 1)` is defined and equals the boundary-extended
interpolant value. -/
theorem c9_extrapolation_witness :
    ((0 : ℚ) < 2 ∧ 1 ≤ ([[(1 : ℚ), 2], [(3 : ℚ), 4]] : Model).length ∧
      1 ≤ (([[(1 : ℚ), 2], [(3 : ℚ), 4]] : Model).headD []).length ∧
      ¬((2 : ℚ) = 3 ∧ (2 : ℚ) = 3) ∧
      1 < (newCount ([[(1 : ℚ), 2], [(3 : ℚ), 4]] : Model).length 2 3).toNat ∧
      ((([[(1 : ℚ), 2], [(3 : ℚ), 4]] : Model).length : ℚ) - 1) * 2
        < ((1 : Nat) : ℚ) * 3) ∧
    (((resample_model [[(1 : ℚ), 2], [(3 : ℚ), 4]] 2 2 3)[1]?.getD [])[1]?
      = some (interpValue [[(1 : ℚ), 2], [(3 : ℚ), 4]] 2 2
          (((1 : Nat) : ℚ) * 3) (((1 : Nat) : ℚ) * 3)) ∧
    interpValue [[(1 : ℚ), 2], [(3 : ℚ), 4]] 2 2
        (((1 : Nat) : ℚ) * 3) (((1 : Nat) : ℚ) * 3)
      = interpValue [[(1 : ℚ), 2], [(3 : ℚ), 4]] 2 2
          (max 0 (min (((1 : Nat) : ℚ) * 3)
            (((([[(1 : ℚ), 2], [(3 : ℚ), 4]] : Model).length : ℚ) - 1) * 2)))
          (max 0 (min (((1 : Nat) : ℚ) * 3)
            ((((([[(1 : ℚ), 2], [(3 : ℚ), 4]] : Model).headD []).length : ℚ) - 1) * 2)))) :=
  ⟨⟨by decide, by decide, by decide, by decide,
      by norm_num [newCount, pyRound], by norm_num⟩,
    c9_extrapolation [[(1 : ℚ), 2], [(3 : ℚ), 4]] 2 2 3 (by decide) (by decide)
      (by decide) (by decide) (by decide) (by decide) 1 1
      (by norm_num [newCount, pyRound]) (by norm_num [newCount, pyRound])
      (Or.inl (by norm_num))⟩

end Sofi2dpy
